import Mathlib

/-!
Verification of the defi-dashboard data pipeline
(`server/fetch_data.py`, `server/process_data.py`,
`visualizations/compare_defi.py`).

Python dictionaries are modelled as insertion-ordered association lists
(`List (String × ℚ)`): `dict.get(k, 0)` is `lookupD`, iteration order is
list order, and `list(d.values())[-1:]` is the last element in insertion
order.  Numeric values are modelled as `ℚ`.  Code paths that raise an
uncaught Python exception return `PyResult.raise_`.
-/

/-- A Python monthly-revenue dict: MonthKey string to accumulated value,
in insertion order, keys unique (dict invariant). -/
abbrev MonthlySeries := List (String × ℚ)

/-- Result of running a piece of Python code: a value, or an uncaught
exception (`ValueError`, `TypeError`). -/
inductive PyResult (α : Type) where
  | ok (a : α)
  | raise_
deriving DecidableEq, Repr

/-- Python `d.get(k, 0)` on a month dict: value of the first entry with
the key, 0 when absent. -/
def lookupD : MonthlySeries → String → ℚ
  | [], _ => 0
  | (k, v) :: rest, q => if q = k then v else lookupD rest q

/-- Keys of the dict, in insertion order (`d.keys()`). -/
def seriesKeys (m : MonthlySeries) : List String := m.map Prod.fst

/-- Python `sum(d.values())`. -/
def sumValues : MonthlySeries → ℚ
  | [] => 0
  | (_, v) :: rest => v + sumValues rest

/-- Python `sum(list(d.values())[-1:])`: the last value in insertion
order, 0 for an empty dict. -/
def lastValD (m : MonthlySeries) : ℚ := (m.map Prod.snd).getLastD 0

/-- The Python idiom `if k not in d: d[k] = 0` followed by `d[k] += v`:
add `v` to the entry with key `k`, appending a fresh entry when absent. -/
def addTo : MonthlySeries → String → ℚ → MonthlySeries
  | [], k, v => [(k, v)]
  | (k', v') :: rest, k, v =>
      if k = k' then (k', v' + v) :: rest else (k', v') :: addTo rest k v

/-- Fold one month dict `d` into an accumulator `m` entry by entry
(the inner loop of `DataProcessor.aggregate_monthly_revenue`). -/
def addEntries (m : MonthlySeries) (d : MonthlySeries) : MonthlySeries :=
  d.foldl (fun acc e => addTo acc e.1 e.2) m

/-- Merge a list of month dicts by summing per key (the all-dict case of
`DataProcessor.aggregate_monthly_revenue`). -/
def mergeDicts (ds : List MonthlySeries) : MonthlySeries :=
  ds.foldl (fun acc d => addEntries acc d) []

/-- Sum of the values of all entries of `d` whose key is `q`.  For a
dict (unique keys) this coincides with `lookupD`. -/
def sumMatch : MonthlySeries → String → ℚ
  | [], _ => 0
  | (k, v) :: rest, q => (if q = k then v else 0) + sumMatch rest q

namespace FetchData

/-- Left-pad a month number to two digits, Python `f"{m:02d}"` for
`0 ≤ m`. -/
def pad2 (m : Nat) : String := if m < 10 then "0" ++ toString m else toString m

/-- The string `f"{year}-{month:02d}"` used for every MonthKey. -/
def monthKeyStr (year month : Nat) : String := toString year ++ "-" ++ pad2 month

/-- Gregorian (year, month) of a day count since 1970-01-01, the civil
calendar of Python's `datetime.utcfromtimestamp`. -/
def civilMonth (z : Nat) : Nat × Nat :=
  let z' := z + 719468
  let era := z' / 146097
  let doe := z' % 146097
  let yoe := (doe - doe / 1460 + doe / 36524 - doe / 146096) / 365
  let y := yoe + era * 400
  let doy := doe - (365 * yoe + yoe / 4 - yoe / 100)
  let mp := (5 * doy + 2) / 153
  let m := if mp < 10 then mp + 3 else mp - 9
  (if m ≤ 2 then y + 1 else y, m)

/-- MonthKey of an epoch-seconds timestamp:
`f"{date.year}-{date.month:02d}"` for `date = utcfromtimestamp(ts)`. -/
def monthKey (ts : Nat) : String :=
  monthKeyStr (civilMonth (ts / 86400)).1 (civilMonth (ts / 86400)).2

/-- Model of `DefiLlamaAPI.aggregate_monthly_revenue`
(fetch_data.py:104-129): bucket daily `(timestamp, value)` points into
calendar-month totals. -/
def aggregate_monthly_revenue (daily : List (Nat × ℚ)) : MonthlySeries :=
  daily.foldl (fun acc e => addTo acc (monthKey e.1) e.2) []

end FetchData

/-! ### Association-list lemmas -/

theorem lookupD_addTo (m : MonthlySeries) (k : String) (v : ℚ) (q : String) :
    lookupD (addTo m k v) q = lookupD m q + (if q = k then v else 0) := by
  induction m with
  | nil => simp [addTo, lookupD]
  | cons e rest ih =>
    obtain ⟨k', v'⟩ := e
    by_cases hk : k = k'
    · subst hk
      by_cases hq : q = k <;> simp [addTo, lookupD, hq, add_comm]
    · by_cases hq : q = k'
      · subst hq
        simp [addTo, lookupD, hk, Ne.symm hk]
      · simp [addTo, lookupD, hk, hq, ih]

theorem mem_seriesKeys_addTo (m : MonthlySeries) (k : String) (v : ℚ) (q : String) :
    q ∈ seriesKeys (addTo m k v) ↔ q ∈ seriesKeys m ∨ q = k := by
  induction m with
  | nil => simp [addTo, seriesKeys]
  | cons e rest ih =>
    obtain ⟨k', v'⟩ := e
    by_cases hk : k = k'
    · subst hk
      constructor
      · intro h
        simp [addTo, seriesKeys] at h
        rcases h with h | h
        · exact Or.inr h
        · exact Or.inl (by simp [seriesKeys]; exact Or.inr h)
      · intro h
        rcases h with h | h
        · simp [seriesKeys] at h
          simp [addTo, seriesKeys]
          tauto
        · simp [addTo, seriesKeys, h]
    · simp only [addTo, if_neg hk, seriesKeys, List.map_cons, List.mem_cons]
      simp only [seriesKeys] at ih
      rw [ih]
      tauto

theorem sumValues_addTo (m : MonthlySeries) (k : String) (v : ℚ) :
    sumValues (addTo m k v) = sumValues m + v := by
  induction m with
  | nil => simp [addTo, sumValues]
  | cons e rest ih =>
    obtain ⟨k', v'⟩ := e
    by_cases hk : k = k'
    · simp [addTo, hk, sumValues]; ring
    · simp [addTo, hk, sumValues, ih]; ring

theorem lookupD_addEntries (d : MonthlySeries) (m : MonthlySeries) (q : String) :
    lookupD (addEntries m d) q = lookupD m q + sumMatch d q := by
  induction d generalizing m with
  | nil => simp [addEntries, sumMatch]
  | cons e rest ih =>
    obtain ⟨k, v⟩ := e
    have : addEntries m ((k, v) :: rest) = addEntries (addTo m k v) rest := rfl
    rw [this, ih, lookupD_addTo]
    simp [sumMatch]
    ring

theorem mem_seriesKeys_addEntries (d : MonthlySeries) (m : MonthlySeries) (q : String) :
    q ∈ seriesKeys (addEntries m d) ↔ q ∈ seriesKeys m ∨ q ∈ seriesKeys d := by
  induction d generalizing m with
  | nil => simp [addEntries, seriesKeys]
  | cons e rest ih =>
    obtain ⟨k, v⟩ := e
    have : addEntries m ((k, v) :: rest) = addEntries (addTo m k v) rest := rfl
    rw [this, ih, mem_seriesKeys_addTo]
    simp [seriesKeys]
    tauto

theorem sumValues_addEntries (d : MonthlySeries) (m : MonthlySeries) :
    sumValues (addEntries m d) = sumValues m + sumValues d := by
  induction d generalizing m with
  | nil => simp [addEntries, sumValues]
  | cons e rest ih =>
    obtain ⟨k, v⟩ := e
    have : addEntries m ((k, v) :: rest) = addEntries (addTo m k v) rest := rfl
    rw [this, ih, sumValues_addTo]
    simp [sumValues]
    ring

theorem seriesKeys_cons (k : String) (v : ℚ) (rest : MonthlySeries) :
    seriesKeys ((k, v) :: rest) = k :: seriesKeys rest := rfl

theorem sumMatch_eq_zero_of_not_mem (d : MonthlySeries) (q : String)
    (h : q ∉ seriesKeys d) : sumMatch d q = 0 := by
  induction d with
  | nil => simp [sumMatch]
  | cons e rest ih =>
    obtain ⟨k, v⟩ := e
    rw [seriesKeys_cons, List.mem_cons] at h
    push_neg at h
    simp [sumMatch, h.1, ih h.2]

theorem sumMatch_eq_lookupD (d : MonthlySeries) (q : String)
    (h : (seriesKeys d).Nodup) : sumMatch d q = lookupD d q := by
  induction d with
  | nil => simp [sumMatch, lookupD]
  | cons e rest ih =>
    obtain ⟨k, v⟩ := e
    rw [seriesKeys_cons, List.nodup_cons] at h
    by_cases hq : q = k
    · subst hq
      simp [sumMatch, lookupD, sumMatch_eq_zero_of_not_mem rest q h.1]
    · simp [sumMatch, lookupD, hq, ih h.2]

/-! ### C8 : monthly aggregation preserves total mass -/

theorem sumValues_fold_addTo (pts : List (Nat × ℚ)) (acc : MonthlySeries) :
    sumValues (pts.foldl (fun a e => addTo a (FetchData.monthKey e.1) e.2) acc)
      = sumValues acc + (pts.map Prod.snd).sum := by
  induction pts generalizing acc with
  | nil => simp
  | cons e rest ih =>
    simp only [List.foldl_cons, List.map_cons, List.sum_cons]
    rw [ih, sumValues_addTo]
    ring

/-- C8: grouping daily points into calendar months neither drops nor
averages mass: the values of the aggregated series sum to the sum of all
input point values, the empty input yields the empty dict, and merging
the singleton list of the aggregate preserves the sum as well. -/
theorem aggregate_monthly_mass_preserving :
    (∀ pts : List (Nat × ℚ),
      sumValues (FetchData.aggregate_monthly_revenue pts) = (pts.map Prod.snd).sum
      ∧ sumValues (mergeDicts [FetchData.aggregate_monthly_revenue pts])
          = (pts.map Prod.snd).sum)
    ∧ FetchData.aggregate_monthly_revenue [] = [] := by
  refine ⟨fun pts => ⟨?_, ?_⟩, rfl⟩
  · have := sumValues_fold_addTo pts []
    simpa [FetchData.aggregate_monthly_revenue, sumValues] using this
  · have h1 : mergeDicts [FetchData.aggregate_monthly_revenue pts]
        = addEntries [] (FetchData.aggregate_monthly_revenue pts) := rfl
    rw [h1, sumValues_addEntries]
    have := sumValues_fold_addTo pts []
    simp only [FetchData.aggregate_monthly_revenue]
    simp only [sumValues] at this ⊢
    rw [this]
    ring

/-! ### Process-stage merge of per-version monthly series
(`DataProcessor.aggregate_monthly_revenue`, process_data.py:93-113) -/

/-- One value of the per-version monthly-revenue dict as it reaches the
merge: a month-keyed dict, a bare number, or anything else (skipped). -/
inductive VersionRevenue where
  | dict (m : MonthlySeries)
  | num (x : ℚ)
  | other
deriving DecidableEq

namespace ProcessData

/-- Loop body state of `DataProcessor.aggregate_monthly_revenue`: the
`aggregated_revenue` variable is a dict until a numeric input overwrites
it with a scalar.  A nonempty dict input after that raises `TypeError`
(`month not in aggregated_revenue` on a number, in the first iteration
of the inner loop); an empty dict runs the inner loop zero times and
leaves the scalar intact. -/
def mergeVersionsAux : MonthlySeries ⊕ ℚ → List VersionRevenue → PyResult (MonthlySeries ⊕ ℚ)
  | s, [] => .ok s
  | Sum.inl m, .dict d :: rest => mergeVersionsAux (Sum.inl (addEntries m d)) rest
  | Sum.inr x, .dict [] :: rest => mergeVersionsAux (Sum.inr x) rest
  | Sum.inr _, .dict (_ :: _) :: _ => .raise_
  | _, .num x :: rest => mergeVersionsAux (Sum.inr x) rest
  | s, .other :: rest => mergeVersionsAux s rest

/-- Model of `DataProcessor.aggregate_monthly_revenue`
(process_data.py:93-113), applied to the sequence
`monthly_revenue.values()`. -/
def aggregate_monthly_revenue (vs : List VersionRevenue) : PyResult (MonthlySeries ⊕ ℚ) :=
  mergeVersionsAux (Sum.inl []) vs

/-- There is a nonempty dict somewhere in the remaining inputs. -/
def hasNonemptyDict : List VersionRevenue → Bool
  | [] => false
  | .dict (_ :: _) :: _ => true
  | _ :: rest => hasNonemptyDict rest

/-- No nonempty dict input occurs after any numeric scalar input
(empty dicts after a scalar are harmless zero-iteration loops). -/
def scalarSafe : List VersionRevenue → Bool
  | [] => true
  | .num _ :: rest => !hasNonemptyDict rest
  | _ :: rest => scalarSafe rest

/-- The last numeric scalar among the inputs, when one exists. -/
def lastScalar : List VersionRevenue → Option ℚ
  | [] => none
  | .num x :: rest => some ((lastScalar rest).getD x)
  | _ :: rest => lastScalar rest

end ProcessData

theorem mergeVersionsAux_dicts (ds : List MonthlySeries) (m : MonthlySeries) :
    ProcessData.mergeVersionsAux (Sum.inl m) (ds.map VersionRevenue.dict)
      = .ok (Sum.inl (ds.foldl (fun acc d => addEntries acc d) m)) := by
  induction ds generalizing m with
  | nil => rfl
  | cons d rest ih => simpa [ProcessData.mergeVersionsAux] using ih (addEntries m d)

theorem lookupD_mergeDicts_fold (ds : List MonthlySeries) (m : MonthlySeries) (q : String) :
    lookupD (ds.foldl (fun acc d => addEntries acc d) m) q
      = lookupD m q + (ds.map (fun d => sumMatch d q)).sum := by
  induction ds generalizing m with
  | nil => simp
  | cons d rest ih =>
    simp only [List.foldl_cons, List.map_cons, List.sum_cons]
    rw [ih, lookupD_addEntries]
    ring

theorem mem_mergeDicts_fold (ds : List MonthlySeries) (m : MonthlySeries) (q : String) :
    q ∈ seriesKeys (ds.foldl (fun acc d => addEntries acc d) m)
      ↔ q ∈ seriesKeys m ∨ ∃ d ∈ ds, q ∈ seriesKeys d := by
  induction ds generalizing m with
  | nil => simp
  | cons d rest ih =>
    simp only [List.foldl_cons]
    rw [ih, mem_seriesKeys_addEntries]
    simp
    tauto

/-- C7: merging month dicts maps each key present in any input to the
sum over all inputs of that input's value for the key (an absent key
contributing 0), and the merged key set is exactly the union of the
input key sets; the merge never raises on all-dict inputs. -/
theorem merge_monthly_series_sums (ds : List MonthlySeries)
    (hnd : ∀ d ∈ ds, (seriesKeys d).Nodup) :
    ProcessData.aggregate_monthly_revenue (ds.map VersionRevenue.dict)
      = .ok (Sum.inl (mergeDicts ds))
    ∧ ∀ q : String,
        (q ∈ seriesKeys (mergeDicts ds) ↔ ∃ d ∈ ds, q ∈ seriesKeys d)
        ∧ lookupD (mergeDicts ds) q = (ds.map (fun d => lookupD d q)).sum := by
  refine ⟨mergeVersionsAux_dicts ds [], fun q => ⟨?_, ?_⟩⟩
  · have := mem_mergeDicts_fold ds [] q
    simpa [mergeDicts, seriesKeys] using this
  · have h := lookupD_mergeDicts_fold ds [] q
    have h2 : ds.map (fun d => sumMatch d q) = ds.map (fun d => lookupD d q) :=
      List.map_congr_left (fun d hd => sumMatch_eq_lookupD d q (hnd d hd))
    have h0 : lookupD (mergeDicts ds) q
        = lookupD ([] : MonthlySeries) q + (ds.map (fun d => sumMatch d q)).sum := h
    rw [h0, h2]
    simp [lookupD]

/-- Witness for `merge_monthly_series_sums`: two concrete version dicts,
the shared month key sums across inputs. -/
theorem merge_monthly_series_sums_witness :
    lookupD (mergeDicts [[("2024-01", (1 : ℚ))], [("2024-01", (2 : ℚ)), ("2024-02", (3 : ℚ))]])
        "2024-01" = 3 := by
  have h := (merge_monthly_series_sums
    [[("2024-01", (1 : ℚ))], [("2024-01", (2 : ℚ)), ("2024-02", (3 : ℚ))]]
    (by decide)).2 "2024-01"
  rw [h.2]
  simp [lookupD]
  norm_num

/-! ### C10 : scalar inputs to the per-version merge -/

theorem mergeVersionsAux_no_dict (rest : List VersionRevenue) (x : ℚ)
    (h : ProcessData.hasNonemptyDict rest = false) :
    ProcessData.mergeVersionsAux (Sum.inr x) rest
      = .ok (Sum.inr ((ProcessData.lastScalar rest).getD x)) := by
  induction rest generalizing x with
  | nil => rfl
  | cons v r ih =>
    cases v with
    | dict d =>
      cases d with
      | nil =>
        have hr : ProcessData.hasNonemptyDict r = false := by
          simpa [ProcessData.hasNonemptyDict] using h
        simp [ProcessData.mergeVersionsAux, ProcessData.lastScalar, ih x hr]
      | cons e es => simp [ProcessData.hasNonemptyDict] at h
    | num y =>
      have hr : ProcessData.hasNonemptyDict r = false := by
        simpa [ProcessData.hasNonemptyDict] using h
      simp [ProcessData.mergeVersionsAux, ProcessData.lastScalar, ih y hr]
    | other =>
      have hr : ProcessData.hasNonemptyDict r = false := by
        simpa [ProcessData.hasNonemptyDict] using h
      simp [ProcessData.mergeVersionsAux, ProcessData.lastScalar, ih x hr]

theorem mergeVersionsAux_scalar_safe (vs : List VersionRevenue) (m : MonthlySeries) (x : ℚ)
    (h1 : ProcessData.scalarSafe vs = true) (h2 : ProcessData.lastScalar vs = some x) :
    ProcessData.mergeVersionsAux (Sum.inl m) vs = .ok (Sum.inr x) := by
  induction vs generalizing m with
  | nil => simp [ProcessData.lastScalar] at h2
  | cons v r ih =>
    cases v with
    | dict d =>
      have h1' : ProcessData.scalarSafe r = true := by
        simpa [ProcessData.scalarSafe] using h1
      have h2' : ProcessData.lastScalar r = some x := by
        simpa [ProcessData.lastScalar] using h2
      simpa [ProcessData.mergeVersionsAux] using ih (addEntries m d) h1' h2'
    | num y =>
      have hr : ProcessData.hasNonemptyDict r = false := by
        simpa [ProcessData.scalarSafe] using h1
      have := mergeVersionsAux_no_dict r y hr
      simp only [ProcessData.lastScalar] at h2
      simp [ProcessData.mergeVersionsAux, this]
      exact Option.some.inj h2
    | other =>
      have h1' : ProcessData.scalarSafe r = true := by
        simpa [ProcessData.scalarSafe] using h1
      have h2' : ProcessData.lastScalar r = some x := by
        simpa [ProcessData.lastScalar] using h2
      simpa [ProcessData.mergeVersionsAux] using ih m h1' h2'

/-- C10 (amended): a numeric scalar input overwrites the accumulator,
so when at least one scalar occurs and no nonempty dict input follows
any scalar (empty dicts run the inner loop zero times and are harmless),
the merge returns the last scalar itself, discarding every month-keyed
sum accumulated before it. -/
theorem merge_scalar_override (vs : List VersionRevenue) (x : ℚ)
    (h1 : ProcessData.scalarSafe vs = true) (h2 : ProcessData.lastScalar vs = some x) :
    ProcessData.aggregate_monthly_revenue vs = .ok (Sum.inr x) :=
  mergeVersionsAux_scalar_safe vs [] x h1 h2

/-- Witness for `merge_scalar_override`: a nonempty dict, a scalar, an
empty dict (zero loop iterations, no raise) and a final scalar merge to
the last scalar 7. -/
theorem merge_scalar_override_witness :
    ProcessData.aggregate_monthly_revenue
        [VersionRevenue.dict [("2024-01", (3 : ℚ))], VersionRevenue.num 5,
         VersionRevenue.dict [], VersionRevenue.num 7]
      = .ok (Sum.inr 7) :=
  merge_scalar_override
    [VersionRevenue.dict [("2024-01", (3 : ℚ))], VersionRevenue.num 5,
     VersionRevenue.dict [], VersionRevenue.num 7]
    7 (by decide) (by decide)

/-- Counterexample to C10 as stated: with a scalar input followed by a
nonempty dict input the merge does not return the scalar (nor any
value) — the inner loop's first iteration raises `TypeError` on
`month not in aggregated_revenue`. -/
theorem merge_scalar_then_dict_raises :
    ProcessData.aggregate_monthly_revenue
        [VersionRevenue.num 5, VersionRevenue.dict [("2024-01", (3 : ℚ))]]
      = .raise_
    ∧ ProcessData.aggregate_monthly_revenue
        [VersionRevenue.num 5, VersionRevenue.dict [("2024-01", (3 : ℚ))]]
      ≠ .ok (Sum.inr 5) := by
  refine ⟨rfl, ?_⟩
  decide

/-! ### Revenue fallback policy (fetch_data.py:232-236 and
`DataProcessor.aggregate_chain_revenue`, process_data.py:115-136) -/

/-- The synthesized annual series both fallback sites build:
`{f"{year}-{i:02d}": annualized_revenue / 12 for i in range(1, 13)}`
with `annualized_revenue = sum(list(mr.values())[-1:]) * 12`. -/
def fallbackSeries (year : Nat) (mr : MonthlySeries) : MonthlySeries :=
  (List.range' 1 12).map (fun i => (FetchData.monthKeyStr year i, lastValD mr * 12 / 12))

namespace ProcessData

/-- The fixed month window of `aggregate_chain_revenue`:
`[f"{y}-{m:02d}" for y in range(2024, 2026) for m in range(1, 13)][1:13]`,
i.e. 2024-02 through 2025-01. -/
def relevantMonths : List String :=
  (((List.range' 2024 2).flatMap
      (fun y => (List.range' 1 12).map (fun m => FetchData.monthKeyStr y m))).drop 1).take 12

/-- The dict `{month: mr.get(month, 0) for month in relevant_months}`. -/
def filteredSeries (mr : MonthlySeries) : MonthlySeries :=
  relevantMonths.map (fun m => (m, lookupD mr m))

/-- Model of `DataProcessor.aggregate_chain_revenue`
(process_data.py:115-136): filter to the fixed window, and synthesize an
annualized series only when the filtered values sum to 0. -/
def aggregate_chain_revenue (year : Nat) (mr : MonthlySeries) : MonthlySeries :=
  if sumValues (filteredSeries mr) = 0 then fallbackSeries year mr else filteredSeries mr

end ProcessData

namespace FetchData

/-- Model of the chain-loop guard of `DefiLlamaAPI.fetch_all_data`
(fetch_data.py:232-236): replace the series by the synthesized one
exactly when it has fewer than 12 months. -/
def ensure_twelve_months (year : Nat) (mr : MonthlySeries) : MonthlySeries :=
  if mr.length < 12 then fallbackSeries year mr else mr

end FetchData

theorem aggregate_chain_fallback_of_zero (year : Nat) (mr : MonthlySeries)
    (h : sumValues (ProcessData.filteredSeries mr) = 0) :
    ProcessData.aggregate_chain_revenue year mr = fallbackSeries year mr := by
  simp [ProcessData.aggregate_chain_revenue, h]

theorem aggregate_chain_filtered_of_nonzero (year : Nat) (mr : MonthlySeries)
    (h : sumValues (ProcessData.filteredSeries mr) ≠ 0) :
    ProcessData.aggregate_chain_revenue year mr = ProcessData.filteredSeries mr := by
  simp [ProcessData.aggregate_chain_revenue, h]

theorem ensure_twelve_fallback_of_short (year : Nat) (mr : MonthlySeries)
    (h : mr.length < 12) :
    FetchData.ensure_twelve_months year mr = fallbackSeries year mr := by
  simp [FetchData.ensure_twelve_months, h]

theorem ensure_twelve_id_of_long (year : Nat) (mr : MonthlySeries)
    (h : 12 ≤ mr.length) :
    FetchData.ensure_twelve_months year mr = mr := by
  simp [FetchData.ensure_twelve_months, Nat.not_lt.2 h]

/-- C1 (amended): the chain-stage policy triggers the synthesized series
exactly when the input's values over the fixed window 2024-02..2025-01
sum to 0, returning the filtered window series (not the input) otherwise;
the fetch-stage policy triggers exactly when the series has fewer than 12
months and only then, returning the input unchanged otherwise. -/
theorem revenue_fallback_trigger (year : Nat) (mr : MonthlySeries) :
    (sumValues (ProcessData.filteredSeries mr) = 0 →
      ProcessData.aggregate_chain_revenue year mr = fallbackSeries year mr)
    ∧ (sumValues (ProcessData.filteredSeries mr) ≠ 0 →
      ProcessData.aggregate_chain_revenue year mr = ProcessData.filteredSeries mr)
    ∧ (mr.length < 12 →
      FetchData.ensure_twelve_months year mr = fallbackSeries year mr)
    ∧ (12 ≤ mr.length → FetchData.ensure_twelve_months year mr = mr) :=
  ⟨aggregate_chain_fallback_of_zero year mr, aggregate_chain_filtered_of_nonzero year mr,
   ensure_twelve_fallback_of_short year mr, ensure_twelve_id_of_long year mr⟩

/-- Witness for `revenue_fallback_trigger`: a series with one in-window
month is returned filtered, not synthesized. -/
theorem revenue_fallback_trigger_witness :
    ProcessData.aggregate_chain_revenue 2025 [("2024-03", (7 : ℚ))]
      = ProcessData.filteredSeries [("2024-03", (7 : ℚ))] := by
  have hfil : ProcessData.filteredSeries [("2024-03", (7 : ℚ))]
      = [("2024-02", 0), ("2024-03", 7), ("2024-04", 0), ("2024-05", 0), ("2024-06", 0),
         ("2024-07", 0), ("2024-08", 0), ("2024-09", 0), ("2024-10", 0), ("2024-11", 0),
         ("2024-12", 0), ("2025-01", 0)] := by decide
  refine (revenue_fallback_trigger 2025 [("2024-03", (7 : ℚ))]).2.1 ?_
  rw [hfil]
  norm_num [sumValues]

/-- Counterexample to C1 as stated: the series `{"2024-02": 5}` has only
1 populated month — far fewer than 12 — yet `aggregate_chain_revenue`
does not return the synthesized annualized series: the filtered window
sum is 5 ≠ 0, so the (filtered) input wins. -/
theorem chain_fallback_coverage_cex :
    ProcessData.aggregate_chain_revenue 2025 [("2024-02", (5 : ℚ))]
      = ProcessData.filteredSeries [("2024-02", (5 : ℚ))]
    ∧ ProcessData.aggregate_chain_revenue 2025 [("2024-02", (5 : ℚ))]
      ≠ fallbackSeries 2025 [("2024-02", (5 : ℚ))]
    ∧ ([("2024-02", (5 : ℚ))] : MonthlySeries).length < 12 := by
  have hfil : ProcessData.filteredSeries [("2024-02", (5 : ℚ))]
      = [("2024-02", 5), ("2024-03", 0), ("2024-04", 0), ("2024-05", 0), ("2024-06", 0),
         ("2024-07", 0), ("2024-08", 0), ("2024-09", 0), ("2024-10", 0), ("2024-11", 0),
         ("2024-12", 0), ("2025-01", 0)] := by decide
  have hsum : sumValues (ProcessData.filteredSeries [("2024-02", (5 : ℚ))]) ≠ 0 := by
    rw [hfil]
    norm_num [sumValues]
  have heq := aggregate_chain_filtered_of_nonzero 2025 [("2024-02", (5 : ℚ))] hsum
  refine ⟨heq, ?_, by decide⟩
  rw [heq, hfil]
  intro hcontra
  have := congrArg (fun l => (seriesKeys l).headD "") hcontra
  revert this
  decide

theorem string_append_cancel_left (s t u : String) (h : s ++ t = s ++ u) : t = u := by
  have hd := congrArg String.data h
  rw [String.data_append, String.data_append] at hd
  exact String.ext (List.append_cancel_left hd)

theorem pad2_inj_window :
    ∀ i ∈ List.range' 1 12, ∀ j ∈ List.range' 1 12,
      FetchData.pad2 i = FetchData.pad2 j → i = j := by decide

theorem monthKeyStr_inj_window (year : Nat) :
    ∀ i ∈ List.range' 1 12, ∀ j ∈ List.range' 1 12,
      FetchData.monthKeyStr year i = FetchData.monthKeyStr year j → i = j := by
  intro i hi j hj h
  simp only [FetchData.monthKeyStr] at h
  exact pad2_inj_window i hi j hj
    (string_append_cancel_left (toString year ++ "-") _ _ h)

theorem sumValues_map_const (l : List Nat) (f : Nat → String) (c : ℚ) :
    sumValues (l.map (fun i => (f i, c))) = l.length * c := by
  induction l with
  | nil => simp [sumValues]
  | cons i rest ih =>
    simp only [List.map_cons, sumValues, ih, List.length_cons]
    push_cast
    ring

/-- C5: on the one-month series `{"2024-01": 120}` both fallback sites
fire and produce a series of exactly 12 distinct month keys anchored at
the processing year, each valued 120, summing to 1440. -/
theorem fallback_single_month_series (year : Nat) :
    ProcessData.aggregate_chain_revenue year [("2024-01", (120 : ℚ))]
      = fallbackSeries year [("2024-01", (120 : ℚ))]
    ∧ FetchData.ensure_twelve_months year [("2024-01", (120 : ℚ))]
      = fallbackSeries year [("2024-01", (120 : ℚ))]
    ∧ (fallbackSeries year [("2024-01", (120 : ℚ))]).length = 12
    ∧ (seriesKeys (fallbackSeries year [("2024-01", (120 : ℚ))])).Nodup
    ∧ (∀ p ∈ fallbackSeries year [("2024-01", (120 : ℚ))], p.2 = 120)
    ∧ sumValues (fallbackSeries year [("2024-01", (120 : ℚ))]) = 1440 := by
  have hlast : lastValD [("2024-01", (120 : ℚ))] = 120 := rfl
  have hval : lastValD [("2024-01", (120 : ℚ))] * 12 / 12 = 120 := by
    rw [hlast]; norm_num
  have hfil : ProcessData.filteredSeries [("2024-01", (120 : ℚ))]
      = [("2024-02", 0), ("2024-03", 0), ("2024-04", 0), ("2024-05", 0), ("2024-06", 0),
         ("2024-07", 0), ("2024-08", 0), ("2024-09", 0), ("2024-10", 0), ("2024-11", 0),
         ("2024-12", 0), ("2025-01", 0)] := by decide
  refine ⟨?_, ?_, ?_, ?_, ?_, ?_⟩
  · refine aggregate_chain_fallback_of_zero year _ ?_
    rw [hfil]
    norm_num [sumValues]
  · exact ensure_twelve_fallback_of_short year _ (by decide)
  · simp [fallbackSeries]
  · have hk : seriesKeys (fallbackSeries year [("2024-01", (120 : ℚ))])
        = (List.range' 1 12).map (FetchData.monthKeyStr year) := by
      simp [fallbackSeries, seriesKeys, List.map_map]
    rw [hk]
    exact List.Nodup.map_on (monthKeyStr_inj_window year) (List.nodup_range' 1 12)
  · intro p hp
    simp only [fallbackSeries, List.mem_map] at hp
    obtain ⟨i, _, rfl⟩ := hp
    exact hval
  · rw [fallbackSeries, sumValues_map_const, hval]
    norm_num

/-! ### Quarter-over-quarter growth
(`DeFiVisualizer.calculate_qoq_growth`, compare_defi.py:208-240; the
same logic appears in `DataProcessor.calculate_qoq_growth`,
process_data.py:138-173) -/

namespace Visualizer

/-- Lexicographic code-point comparison of character lists, the order
Python uses to compare strings. -/
def charsLt : List Char → List Char → Bool
  | [], [] => false
  | [], _ :: _ => true
  | _ :: _, [] => false
  | a :: as, b :: bs =>
      if a.toNat < b.toNat then true
      else if b.toNat < a.toNat then false
      else charsLt as bs

/-- Python string comparison `s < t` (by Unicode code points). -/
def strLt (s t : String) : Bool := charsLt s.data t.data

/-- Insert a key into a descending-sorted list of month keys. -/
def insertDesc (s : String) : List String → List String
  | [] => [s]
  | t :: ts => if strLt s t then t :: insertDesc s ts else s :: t :: ts

/-- Python `sorted(keys, reverse=True)`: lexicographically descending. -/
def sortDescStr (l : List String) : List String := l.foldr insertDesc []

/-- The `sorted_months` variable: the dict's keys sorted descending. -/
def sortedMonthsD (mr : MonthlySeries) : List String := sortDescStr (seriesKeys mr)

/-- Python `sum(monthly_revenue.get(month, 0) for month in months)`. -/
def quarterSumRaw (mr : MonthlySeries) (months : List String) : ℚ :=
  (months.map (lookupD mr)).sum

/-- The inner `get_quarter_revenue`: the raw quarter sum, substituting
`sum(list(monthly_revenue.values())[-1:]) * 4` when that sum is 0. -/
def quarterRevenue (mr : MonthlySeries) (months : List String) : ℚ :=
  if quarterSumRaw mr months = 0 then lastValD mr * 4 else quarterSumRaw mr months

/-- Model of `DeFiVisualizer.calculate_qoq_growth`
(compare_defi.py:208-240). -/
def calculate_qoq_growth (mr : MonthlySeries) : ℚ :=
  if (sortedMonthsD mr).length < 12 then 0
  else if quarterRevenue mr (((sortedMonthsD mr).drop 3).take 3) = 0 then 0
  else
    (quarterRevenue mr ((sortedMonthsD mr).take 3)
        - quarterRevenue mr (((sortedMonthsD mr).drop 3).take 3))
      / quarterRevenue mr (((sortedMonthsD mr).drop 3).take 3)

end Visualizer

theorem length_insertDesc (s : String) (l : List String) :
    (Visualizer.insertDesc s l).length = l.length + 1 := by
  induction l with
  | nil => rfl
  | cons t ts ih =>
    by_cases h : Visualizer.strLt s t <;> simp [Visualizer.insertDesc, h, ih]

theorem length_sortDescStr (l : List String) :
    (Visualizer.sortDescStr l).length = l.length := by
  induction l with
  | nil => rfl
  | cons t ts ih => simp [Visualizer.sortDescStr, length_insertDesc]
                    simpa [Visualizer.sortDescStr] using ih

theorem length_sortedMonthsD (mr : MonthlySeries) :
    (Visualizer.sortedMonthsD mr).length = (seriesKeys mr).length := by
  simp [Visualizer.sortedMonthsD, length_sortDescStr]

/-- C2 (amended): with fewer than 12 distinct months the QoQ growth is
0.0; with at least 12 distinct months, and both raw quarter sums nonzero
(so the zero-quarter substitution does not fire), the growth is
(last-quarter sum − previous-quarter sum) / previous-quarter sum, the
quarters being the 3 most recent sorted months and the next 3. -/
theorem qoq_growth_threshold_and_formula (mr : MonthlySeries) :
    ((seriesKeys mr).length < 12 → Visualizer.calculate_qoq_growth mr = 0)
    ∧ (12 ≤ (seriesKeys mr).length →
        Visualizer.quarterSumRaw mr ((Visualizer.sortedMonthsD mr).take 3) ≠ 0 →
        Visualizer.quarterSumRaw mr (((Visualizer.sortedMonthsD mr).drop 3).take 3) ≠ 0 →
        Visualizer.calculate_qoq_growth mr =
          (Visualizer.quarterSumRaw mr ((Visualizer.sortedMonthsD mr).take 3)
              - Visualizer.quarterSumRaw mr (((Visualizer.sortedMonthsD mr).drop 3).take 3))
            / Visualizer.quarterSumRaw mr (((Visualizer.sortedMonthsD mr).drop 3).take 3)) := by
  constructor
  · intro h
    have hl : (Visualizer.sortedMonthsD mr).length < 12 := by
      rw [length_sortedMonthsD]; exact h
    simp [Visualizer.calculate_qoq_growth, hl]
  · intro h hlast hprev
    have hl : ¬ (Visualizer.sortedMonthsD mr).length < 12 := by
      rw [length_sortedMonthsD]; exact Nat.not_lt.2 h
    have hqprev : Visualizer.quarterRevenue mr (((Visualizer.sortedMonthsD mr).drop 3).take 3)
        = Visualizer.quarterSumRaw mr (((Visualizer.sortedMonthsD mr).drop 3).take 3) := by
      simp [Visualizer.quarterRevenue, hprev]
    have hqlast : Visualizer.quarterRevenue mr ((Visualizer.sortedMonthsD mr).take 3)
        = Visualizer.quarterSumRaw mr ((Visualizer.sortedMonthsD mr).take 3) := by
      simp [Visualizer.quarterRevenue, hlast]
    simp only [Visualizer.calculate_qoq_growth, if_neg hl, hqprev, hqlast, if_neg hprev]

/-- Six consecutive months whose 3 most recent sum to 300 and whose next
3 sum to 200. -/
def qoqSixMonths : MonthlySeries :=
  [("2024-01", 50), ("2024-02", 50), ("2024-03", 100),
   ("2024-04", 100), ("2024-05", 100), ("2024-06", 100)]

/-- Counterexample to C2 as stated: on 6 consecutive months with
last-quarter sum 300 and previous-quarter sum 200, the code returns 0.0
(its threshold is 12 distinct months, not 6), not the claimed 0.5. -/
theorem qoq_six_months_cex :
    ((Visualizer.sortedMonthsD qoqSixMonths).take 3).map (lookupD qoqSixMonths)
        = [100, 100, 100]
    ∧ (((Visualizer.sortedMonthsD qoqSixMonths).drop 3).take 3).map (lookupD qoqSixMonths)
        = [100, 50, 50]
    ∧ Visualizer.calculate_qoq_growth qoqSixMonths = 0
    ∧ Visualizer.calculate_qoq_growth qoqSixMonths ≠ 1 / 2 := by
  have hlen : (Visualizer.sortedMonthsD qoqSixMonths).length < 12 := by decide
  have h0 : Visualizer.calculate_qoq_growth qoqSixMonths = 0 := by
    simp [Visualizer.calculate_qoq_growth, hlen]
  refine ⟨by decide, by decide, h0, ?_⟩
  rw [h0]
  norm_num

/-- Twelve consecutive months: most recent quarter sums to 300, the one
before to 200. -/
def qoqTwelveMonths : MonthlySeries :=
  [("2024-01", 10), ("2024-02", 10), ("2024-03", 10), ("2024-04", 10),
   ("2024-05", 10), ("2024-06", 10), ("2024-07", 50), ("2024-08", 50),
   ("2024-09", 100), ("2024-10", 100), ("2024-11", 100), ("2024-12", 100)]

/-- Witness for `qoq_growth_threshold_and_formula`: 12 months with
quarter sums 300 and 200 give growth (300 − 200)/200 = 0.5. -/
theorem qoq_growth_formula_witness :
    Visualizer.calculate_qoq_growth qoqTwelveMonths = 1 / 2 := by
  have hm1 : ((Visualizer.sortedMonthsD qoqTwelveMonths).take 3).map (lookupD qoqTwelveMonths)
      = [100, 100, 100] := by decide
  have hm2 : (((Visualizer.sortedMonthsD qoqTwelveMonths).drop 3).take 3).map
      (lookupD qoqTwelveMonths) = [100, 50, 50] := by decide
  have hlast : Visualizer.quarterSumRaw qoqTwelveMonths
      ((Visualizer.sortedMonthsD qoqTwelveMonths).take 3) = 300 := by
    simp only [Visualizer.quarterSumRaw]
    rw [hm1]
    norm_num
  have hprev : Visualizer.quarterSumRaw qoqTwelveMonths
      (((Visualizer.sortedMonthsD qoqTwelveMonths).drop 3).take 3) = 200 := by
    simp only [Visualizer.quarterSumRaw]
    rw [hm2]
    norm_num
  have h := (qoq_growth_threshold_and_formula qoqTwelveMonths).2 (by decide)
    (by rw [hlast]; norm_num) (by rw [hprev]; norm_num)
  rw [h, hlast, hprev]
  norm_num

/-- C6 (amended): the QoQ computation never divides by a zero quarter:
whenever the previous-quarter revenue is 0 even after the code's
substitution (4 × the last value of the dict in insertion order), the
returned growth is exactly 0.0. -/
theorem qoq_zero_previous_guard (mr : MonthlySeries)
    (h : Visualizer.quarterRevenue mr (((Visualizer.sortedMonthsD mr).drop 3).take 3) = 0) :
    Visualizer.calculate_qoq_growth mr = 0 := by
  by_cases hl : (Visualizer.sortedMonthsD mr).length < 12
  · simp [Visualizer.calculate_qoq_growth, hl]
  · simp [Visualizer.calculate_qoq_growth, hl, h]

/-- Twelve months of all-zero revenue. -/
def qoqZeroTwelve : MonthlySeries :=
  [("2024-01", 0), ("2024-02", 0), ("2024-03", 0), ("2024-04", 0),
   ("2024-05", 0), ("2024-06", 0), ("2024-07", 0), ("2024-08", 0),
   ("2024-09", 0), ("2024-10", 0), ("2024-11", 0), ("2024-12", 0)]

/-- Witness for `qoq_zero_previous_guard`: an all-zero 12-month series
has previous-quarter revenue 0 even after substitution, and growth 0. -/
theorem qoq_zero_previous_guard_witness :
    Visualizer.calculate_qoq_growth qoqZeroTwelve = 0 := by
  refine qoq_zero_previous_guard qoqZeroTwelve ?_
  have hm : (((Visualizer.sortedMonthsD qoqZeroTwelve).drop 3).take 3).map
      (lookupD qoqZeroTwelve) = [0, 0, 0] := by decide
  have hraw : Visualizer.quarterSumRaw qoqZeroTwelve
      (((Visualizer.sortedMonthsD qoqZeroTwelve).drop 3).take 3) = 0 := by
    simp only [Visualizer.quarterSumRaw]
    rw [hm]
    norm_num
  have hlv : lastValD qoqZeroTwelve = 0 := by decide
  simp [Visualizer.quarterRevenue, hraw, hlv]

/-- Twelve months whose previous quarter sums to 0 and whose most recent
month has value 0, but whose last entry in dict insertion order is the
month "2024-01" with value 5. -/
def qoqStaleLast : MonthlySeries :=
  [("2024-12", 0), ("2024-11", 0), ("2024-10", 100), ("2024-09", 0),
   ("2024-08", 0), ("2024-07", 0), ("2024-06", 0), ("2024-05", 0),
   ("2024-04", 0), ("2024-03", 0), ("2024-02", 0), ("2024-01", 5)]

/-- Counterexample to C6 as stated: here the previous quarter sums to 0
and the most recent month's value × 4 is also 0, so the claim demands
growth 0.0 — but the code substitutes the last insertion-order value
(5 × 4 = 20) and returns (100 − 20)/20 = 4. -/
theorem qoq_substitution_cex :
    Visualizer.quarterSumRaw qoqStaleLast
        (((Visualizer.sortedMonthsD qoqStaleLast).drop 3).take 3) = 0
    ∧ lookupD qoqStaleLast ((Visualizer.sortedMonthsD qoqStaleLast).headD "") * 4 = 0
    ∧ Visualizer.calculate_qoq_growth qoqStaleLast = 4 := by
  have hm1 : (((Visualizer.sortedMonthsD qoqStaleLast).drop 3).take 3).map
      (lookupD qoqStaleLast) = [0, 0, 0] := by decide
  have hraw1 : Visualizer.quarterSumRaw qoqStaleLast
      (((Visualizer.sortedMonthsD qoqStaleLast).drop 3).take 3) = 0 := by
    simp only [Visualizer.quarterSumRaw]
    rw [hm1]
    norm_num
  have hlv : lastValD qoqStaleLast = 5 := by decide
  have hprev : Visualizer.quarterRevenue qoqStaleLast
      (((Visualizer.sortedMonthsD qoqStaleLast).drop 3).take 3) = 20 := by
    simp only [Visualizer.quarterRevenue, hraw1, hlv]
    norm_num
  have hm2 : ((Visualizer.sortedMonthsD qoqStaleLast).take 3).map (lookupD qoqStaleLast)
      = [0, 0, 100] := by decide
  have hraw2 : Visualizer.quarterSumRaw qoqStaleLast
      ((Visualizer.sortedMonthsD qoqStaleLast).take 3) = 100 := by
    simp only [Visualizer.quarterSumRaw]
    rw [hm2]
    norm_num
  have hlastq : Visualizer.quarterRevenue qoqStaleLast
      ((Visualizer.sortedMonthsD qoqStaleLast).take 3) = 100 := by
    simp only [Visualizer.quarterRevenue, hraw2]
    norm_num
  have hhead : lookupD qoqStaleLast ((Visualizer.sortedMonthsD qoqStaleLast).headD "") = 0 := by
    decide
  have hlen : ¬ (Visualizer.sortedMonthsD qoqStaleLast).length < 12 := by decide
  refine ⟨hraw1, by rw [hhead]; norm_num, ?_⟩
  simp only [Visualizer.calculate_qoq_growth, if_neg hlen, hprev, hlastq]
  norm_num

/-! ### Raw-record normalization (`DefiLlamaAPI.fetch_all_data`,
fetch_data.py:169-198) -/

/-- A raw `tvl` field value.  A string carries the result of Python's
`float()` on it: `some q` when it parses as the number `q`, `none` when
`float()` raises `ValueError`. -/
inductive TvlVal where
  | null
  | num (x : ℚ)
  | str (parse : Option ℚ)
  | dict (entries : List (String × ℚ))
  | list (xs : List ℚ)
deriving DecidableEq

namespace FetchData

/-- Model of the TVL branch of `fetch_all_data` (fetch_data.py:169-176):
dict sums its values; a nonempty list takes its last element; an
int/float/str goes through `float()`; anything else becomes 0. -/
def extract_tvl : TvlVal → PyResult ℚ
  | .dict es => .ok ((es.map Prod.snd).sum)
  | .list xs => if xs.isEmpty then .ok 0 else .ok (xs.getLastD 0)
  | .num x => .ok x
  | .str (some q) => .ok q
  | .str none => .raise_
  | .null => .ok 0

/-- One version's raw inputs as they reach the normalization code:
`protocol_data` fields plus the two fee/revenue `totalDataChart` arrays
(`none` models both a failed fetch and a missing key). -/
structure RawPayload where
  tvl : Option TvlVal
  feesChart : Option (List (Nat × ℚ))
  revenueChart : Option (List (Nat × ℚ))
  pname : Option String
  symbol : Option String
  chains : Option (List String)
  mcap : Option ℚ
deriving DecidableEq

/-- The `protocol_metrics` dict built at fetch_data.py:190-198. -/
structure ProtocolMetrics where
  pname : String
  symbol : String
  chains : List String
  tvl : ℚ
  fees : ℚ
  revenue : ℚ
  mcap : ℚ
  monthly_revenue : MonthlySeries
deriving DecidableEq

/-- Python `sum(day[1] for day in chart)` guarded by presence of the
chart (fetch_data.py:179-180), 0 when absent. -/
def chartSum : Option (List (Nat × ℚ)) → ℚ
  | some chart => (chart.map Prod.snd).sum
  | none => 0

/-- Model of the per-version normalization body of `fetch_all_data`
(fetch_data.py:169-198): TVL extraction (with `protocol_data.get("tvl", 0)`
defaulting), fee/revenue chart sums, monthly aggregation, and metadata
defaults. -/
def normalize_protocol (pid : String) (p : RawPayload) : PyResult ProtocolMetrics :=
  match extract_tvl (p.tvl.getD (.num 0)) with
  | .raise_ => .raise_
  | .ok tvlValue =>
      .ok { pname := p.pname.getD pid
            symbol := p.symbol.getD ""
            chains := p.chains.getD []
            tvl := tvlValue
            fees := chartSum p.feesChart
            revenue := chartSum p.revenueChart
            mcap := p.mcap.getD 0
            monthly_revenue :=
              match p.revenueChart with
              | some chart => aggregate_monthly_revenue chart
              | none => [] }

end FetchData

/-- C3 (amended): TVL extraction follows the priority order — mapping
sums its amounts, nonempty list takes the last element, a number or a
numeric string yields that number — and every other non-string value
(absent, null, empty list) yields 0; a string `float()` cannot parse
raises `ValueError` instead of yielding 0. -/
theorem extract_tvl_priority :
    (∀ es : List (String × ℚ),
        FetchData.extract_tvl (TvlVal.dict es) = .ok ((es.map Prod.snd).sum))
    ∧ (∀ (x : ℚ) (xs : List ℚ),
        FetchData.extract_tvl (TvlVal.list (x :: xs)) = .ok ((x :: xs).getLastD 0))
    ∧ (∀ x : ℚ, FetchData.extract_tvl (TvlVal.num x) = .ok x)
    ∧ (∀ q : ℚ, FetchData.extract_tvl (TvlVal.str (some q)) = .ok q)
    ∧ FetchData.extract_tvl ((Option.getD none (TvlVal.num 0))) = .ok 0
    ∧ FetchData.extract_tvl TvlVal.null = .ok 0
    ∧ FetchData.extract_tvl (TvlVal.list []) = .ok 0
    ∧ FetchData.extract_tvl (TvlVal.str none) = .raise_
    ∧ FetchData.extract_tvl (TvlVal.dict [("ethereum", 100), ("polygon", 50)]) = .ok 150
    ∧ FetchData.extract_tvl (TvlVal.list [10, 20, 30]) = .ok 30
    ∧ FetchData.extract_tvl (TvlVal.str (some (42.5 : ℚ))) = .ok (42.5 : ℚ) := by
  refine ⟨fun es => rfl, fun x xs => by simp [FetchData.extract_tvl],
    fun x => rfl, fun q => rfl, rfl, rfl, rfl, rfl, ?_, by decide, rfl⟩
  simp [FetchData.extract_tvl]
  norm_num

/-- Counterexample to C3 as stated: a non-numeric string is neither a
mapping, nor a list, nor a scalar convertible to a number, so clause (d)
of the claim demands 0 — but the code's `float(tvl_data)` raises
`ValueError`. -/
theorem extract_tvl_bad_string_cex :
    FetchData.extract_tvl (TvlVal.str none) = .raise_
    ∧ FetchData.extract_tvl (TvlVal.str none) ≠ .ok 0 := by
  exact ⟨rfl, by decide⟩

/-- C4 (amended): normalization of a raw protocol payload never raises
— every missing or non-numeric field coerces to a defined value,
producing a record with numeric financial fields — except in exactly one
case: a TVL field holding a string that `float()` cannot parse, which
raises `ValueError`. -/
theorem normalize_protocol_total (pid : String) (p : FetchData.RawPayload) :
    (p.tvl = some (TvlVal.str none) → FetchData.normalize_protocol pid p = .raise_)
    ∧ (p.tvl ≠ some (TvlVal.str none) →
        ∃ m : FetchData.ProtocolMetrics, FetchData.normalize_protocol pid p = .ok m) := by
  constructor
  · intro h
    simp [FetchData.normalize_protocol, h, FetchData.extract_tvl]
  · intro h
    rcases hp : p.tvl with _ | t
    · exact ⟨_, by simp [FetchData.normalize_protocol, hp, FetchData.extract_tvl]; rfl⟩
    · cases t with
      | null => exact ⟨_, by simp [FetchData.normalize_protocol, hp, FetchData.extract_tvl]; rfl⟩
      | num x => exact ⟨_, by simp [FetchData.normalize_protocol, hp, FetchData.extract_tvl]; rfl⟩
      | str o =>
        cases o with
        | none => exact absurd hp h
        | some q => exact ⟨_, by simp [FetchData.normalize_protocol, hp, FetchData.extract_tvl]; rfl⟩
      | dict es => exact ⟨_, by simp [FetchData.normalize_protocol, hp, FetchData.extract_tvl]; rfl⟩
      | list xs =>
        cases xs with
        | nil => exact ⟨_, by simp [FetchData.normalize_protocol, hp, FetchData.extract_tvl]; rfl⟩
        | cons x rest =>
          exact ⟨_, by simp [FetchData.normalize_protocol, hp, FetchData.extract_tvl]; rfl⟩

/-- Witness for `normalize_protocol_total`: a payload with a chain
breakdown for TVL and no other fields normalizes successfully. -/
theorem normalize_protocol_total_witness :
    ∃ m : FetchData.ProtocolMetrics,
      FetchData.normalize_protocol "aave"
        { tvl := some (TvlVal.dict [("ethereum", 100)]), feesChart := none,
          revenueChart := none, pname := none, symbol := none,
          chains := none, mcap := none } = .ok m :=
  (normalize_protocol_total "aave"
    { tvl := some (TvlVal.dict [("ethereum", 100)]), feesChart := none,
      revenueChart := none, pname := none, symbol := none,
      chains := none, mcap := none }).2 (by decide)

/-- Counterexample to C4 as stated: a payload whose TVL field is a
non-numeric string makes the whole normalization raise instead of
producing a record. -/
theorem normalize_protocol_raises_cex :
    FetchData.normalize_protocol "aave"
      { tvl := some (TvlVal.str none), feesChart := none, revenueChart := none,
        pname := none, symbol := none, chains := none, mcap := none } = .raise_ := by
  rfl

/-! ### RankingEngine (spec §4.6) — no ranking code exists under the
repository sources; modelled from the spec. -/

namespace Ranking

/-- Modelled from the spec: a ProcessedProtocol as the RankingEngine
sees it — display name and the default ranking metric (market cap).
The RankingEngine itself is absent from the repository sources. -/
structure Candidate where
  name : String
  mcap : ℚ
deriving DecidableEq

/-- Modelled from the spec: ASCII lowercasing of a character, for the
case-insensitive name match. -/
def charLower (c : Char) : Char :=
  if 65 ≤ c.toNat ∧ c.toNat ≤ 90 then Char.ofNat (c.toNat + 32) else c

/-- Modelled from the spec: lowercase a name for comparison. -/
def strLower (s : String) : String := ⟨s.data.map charLower⟩

/-- Modelled from the spec: case-insensitive match of the designated
must-include entity by name. -/
def matchesName (must : String) (c : Candidate) : Bool :=
  strLower c.name == strLower must

/-- Modelled from the spec: stable insertion of a candidate into a
descending-by-metric list (ties keep earlier elements first). -/
def insertByMcap (c : Candidate) : List Candidate → List Candidate
  | [] => [c]
  | d :: ds => if d.mcap ≤ c.mcap then c :: d :: ds else d :: insertByMcap c ds

/-- Modelled from the spec: stable descending sort by market cap. -/
def sortByMcapDesc (cs : List Candidate) : List Candidate := cs.foldr insertByMcap []

/-- Modelled from the spec: the RankingEngine — sort descending by the
metric, take the first N, and append the must-include entity when it
exists in the candidate set but fell outside the top N. -/
def rankTopN (n : Nat) (must : String) (cs : List Candidate) : List Candidate :=
  if ((sortByMcapDesc cs).take n).any (matchesName must) then (sortByMcapDesc cs).take n
  else
    match (sortByMcapDesc cs).find? (matchesName must) with
    | some c => (sortByMcapDesc cs).take n ++ [c]
    | none => (sortByMcapDesc cs).take n

end Ranking

theorem sortByMcapDesc_sorted_id (cs : List Ranking.Candidate)
    (hs : List.Pairwise (fun a b => b.mcap ≤ a.mcap) cs) :
    Ranking.sortByMcapDesc cs = cs := by
  induction cs with
  | nil => rfl
  | cons c rest ih =>
    rw [List.pairwise_cons] at hs
    have h1 : Ranking.sortByMcapDesc (c :: rest) = Ranking.insertByMcap c rest := by
      have : Ranking.sortByMcapDesc (c :: rest)
          = Ranking.insertByMcap c (Ranking.sortByMcapDesc rest) := rfl
      rw [this, ih hs.2]
    rw [h1]
    cases rest with
    | nil => rfl
    | cons d ds =>
      have hd : d.mcap ≤ c.mcap := hs.1 d (List.mem_cons_self d ds)
      simp [Ranking.insertByMcap, hd]

/-- C9: on a candidate set already sorted descending by market cap with
N ≤ its size, when the must-include entity (matched by name,
case-insensitively) occurs in the candidate set but not in the top N,
the ranking returns the top N with that entity appended — length N + 1,
containing the entity exactly once — and when the entity is already in
the top N, the ranking returns the top N unchanged (no duplication). -/
theorem ranking_must_include (n : Nat) (must : String) (cs : List Ranking.Candidate)
    (c : Ranking.Candidate)
    (hs : List.Pairwise (fun a b => b.mcap ≤ a.mcap) cs)
    (hn : n ≤ cs.length) :
    ((cs.take n).any (Ranking.matchesName must) = false →
      cs.find? (Ranking.matchesName must) = some c →
      Ranking.rankTopN n must cs = cs.take n ++ [c]
      ∧ (Ranking.rankTopN n must cs).length = n + 1
      ∧ (Ranking.rankTopN n must cs).countP (Ranking.matchesName must) = 1)
    ∧ ((cs.take n).any (Ranking.matchesName must) = true →
      Ranking.rankTopN n must cs = cs.take n) := by
  have hid := sortByMcapDesc_sorted_id cs hs
  constructor
  · intro hany hfind
    have heq : Ranking.rankTopN n must cs = cs.take n ++ [c] := by
      simp [Ranking.rankTopN, hid, hany, hfind]
    refine ⟨heq, ?_, ?_⟩
    · rw [heq]
      simp [List.length_take, Nat.min_eq_left hn]
    · rw [heq, List.countP_append]
      have h0 : (cs.take n).countP (Ranking.matchesName must) = 0 := by
        rw [List.countP_eq_zero]
        intro a ha
        have := List.any_eq_false.mp hany
        simpa using this a ha
      have hc : Ranking.matchesName must c = true := List.find?_some hfind
      simp [h0, List.countP_cons, hc]
  · intro hany
    simp [Ranking.rankTopN, hid, hany]

/-- Eight candidates sorted descending by market cap; the must-include
entity "G" is ranked 7th. -/
def rankingCands8 : List Ranking.Candidate :=
  [⟨"A", 80⟩, ⟨"B", 70⟩, ⟨"C", 60⟩, ⟨"D", 50⟩,
   ⟨"E", 40⟩, ⟨"F", 30⟩, ⟨"G", 20⟩, ⟨"H", 10⟩]

/-- Witness for `ranking_must_include`: with N = 5 and must-include "g"
(matching "G" case-insensitively, ranked 7th), the output has length 6
and contains "G" exactly once, appended at the end. -/
theorem ranking_must_include_witness :
    Ranking.rankTopN 5 "g" rankingCands8 = rankingCands8.take 5 ++ [⟨"G", 20⟩]
    ∧ (Ranking.rankTopN 5 "g" rankingCands8).length = 6
    ∧ (Ranking.rankTopN 5 "g" rankingCands8).countP (Ranking.matchesName "g") = 1 := by
  have h := (ranking_must_include 5 "g" rankingCands8 ⟨"G", 20⟩ (by decide) (by decide)).1
    (by decide) (by decide)
  exact ⟨h.1, h.2.1, h.2.2⟩
